import Mathlib

/-!
Shallow embedding of `src/utils/blockchain.ts` (MSCA wallet recovery):
building, fee-estimating, multi-signing and signature-packing of
ERC-4337 v0.7 user operations.

Modelling conventions:
* byte strings (`0x…` hex strings in the source) are `List Nat`, one
  element per byte (each < 256 on well-formed data);
* addresses are their unsigned-integer value (`hexToBigInt` in the source);
* `bigint` quantities are `Nat` (all quantities in play are non-negative);
* the JS number `gasFeesMultiplier` is a rational `ℚ`, `Math.round` is
  `jsRound` below;
* network interactions (fee oracle, Alchemy min-fee endpoint, bundler gas
  estimation, nonce fetch) are oracle inputs collected in `NetOracle`;
  every network call the code performs is recorded, in program order, in a
  `List NetEvent` trace returned alongside the result;
* `logAndExit` / a thrown exception is `Except.error` with a `BuildError`
  tag naming the failure category.
-/

namespace MSCA

/-- The v0.7 user operation record manipulated by the source
(`UserOperation<"v0.7">` from permissionless). -/
structure UserOperation where
  sender : Nat
  nonce : Nat
  factory : Option Nat
  factoryData : Option (List Nat)
  callData : List Nat
  maxPriorityFeePerGas : Nat
  maxFeePerGas : Nat
  callGasLimit : Nat
  verificationGasLimit : Nat
  preVerificationGas : Nat
  signature : List Nat
deriving Repr, DecidableEq

/-- Failure categories of the pipeline (`logAndExit` calls and thrown
exceptions in the source, named after the spec's error kinds). -/
inductive BuildError where
  | undeployedAccount
  | feeFetchError
  | invalidConfig
  | providerQueryError
  | packingError
deriving Repr, DecidableEq

/-- A network call performed by the code, recorded in program order.
`bundlerEstimate` carries the signature field of the user operation sent
to the bundler's gas-estimation RPC. -/
inductive NetEvent where
  | feeOracleQuery
  | alchemyQuery
  | bundlerEstimate (sig : List Nat)
deriving Repr, DecidableEq

/-- Responses of the external services consumed by `estimateUserOp`:
the fee oracle (`publicClient.estimateFeesPerGas()`, each field possibly
absent), whether the bundler URL matches Alchemy (`isAlchemyBundler`),
the Alchemy `rundler_maxPriorityFeePerGas` fetch (transport failure, or a
response whose `result` field may be absent), and the bundler's
`estimateUserOperationGas` response. -/
structure NetOracle where
  feeMaxFeePerGas : Option Nat
  feeMaxPriorityFeePerGas : Option Nat
  isAlchemy : Bool
  alchemyResponse : Except Unit (Option Nat)
  gasCallGasLimit : Nat
  gasVerificationGasLimit : Nat
  gasPreVerificationGas : Nat
deriving Repr

/-- JS `Math.round`: round half towards positive infinity. -/
def jsRound (q : ℚ) : ℤ := ⌊q + 1 / 2⌋

/-- JS falsiness of an optional `bigint`: `undefined`/`null` and `0n`
are falsy. -/
def jsFalsy : Option Nat → Bool
  | none => true
  | some n => n == 0

/-- Fee scaling from `estimateUserOp` (lines 193-196):
`fee * BigInt(100 + Math.round((gasFeesMultiplier - 1) * 100)) / BigInt(100)`.
BigInt division truncates; both operands are non-negative on the guarded
path (`gasFeesMultiplier >= 1`), so `Nat` division is exact. -/
def scaledFee (fee : Nat) (m : ℚ) : Nat :=
  fee * (100 + jsRound ((m - 1) * 100)).toNat / 100

/-- The 65-byte filler block of the estimation placeholder signature:
bytes of `fff…f0 00…0 7a aa…aa 3c` (the literal at line 215). -/
def placeholderPattern : List Nat :=
  List.replicate 15 255 ++ [240] ++ List.replicate 16 0 ++ [122] ++
    List.replicate 31 170 ++ [60]

/-- `'0x' + pattern.repeat(numSigners)`: the placeholder signature sent to
the bundler for gas estimation. -/
def placeholderSig (numSigners : Nat) : List Nat :=
  (List.replicate numSigners placeholderPattern).flatten

/-- `getPartialUserOp` (lines 100-133): builds the zero-gas, unsigned base
user operation around the externally fetched account nonce, exiting when
the nonce is zero (wallet not deployed). -/
def getPartialUserOp (senderAddress : Nat) (callData : List Nat)
    (fetchedNonce : Nat) : Except BuildError UserOperation :=
  let userOp : UserOperation :=
    { sender := senderAddress
      nonce := fetchedNonce
      factory := none
      factoryData := none
      callData := callData
      maxPriorityFeePerGas := 0
      maxFeePerGas := 0
      callGasLimit := 0
      verificationGasLimit := 0
      preVerificationGas := 0
      signature := [] }
  if userOp.nonce = 0 then .error .undeployedAccount else .ok userOp

/-- `estimateUserOp` (lines 135-240). Faithful ordering: the fee-oracle
query runs first; then the missing-fee check, then the multiplier check;
then (for Alchemy bundlers) the min-priority-fee fetch, whose transport
failure is rethrown and whose missing `result` silently becomes `0n`;
then fee scaling, the placeholder-signature gas-estimation call, and the
result with gas limits filled in and the signature reset to `0x`. -/
def estimateUserOp (o : NetOracle) (userOp : UserOperation)
    (numSigners : Nat) (gasFeesMultiplier : ℚ) :
    Except BuildError UserOperation × List NetEvent :=
  if jsFalsy o.feeMaxFeePerGas || jsFalsy o.feeMaxPriorityFeePerGas then
    (.error .feeFetchError, [.feeOracleQuery])
  else if gasFeesMultiplier < 1 then
    (.error .invalidConfig, [.feeOracleQuery])
  else
    let alchemyStep : Except BuildError Nat × List NetEvent :=
      if o.isAlchemy then
        match o.alchemyResponse with
        | .error _ => (.error .providerQueryError, [.alchemyQuery])
        | .ok r => (.ok (r.getD 0), [.alchemyQuery])
      else (.ok 0, [])
    match alchemyStep with
    | (.error e, evs) => (.error e, .feeOracleQuery :: evs)
    | (.ok alchemyMaxPriorityFeePerGas, evs) =>
      let adjustedMaxFeePerGas :=
        scaledFee (o.feeMaxFeePerGas.getD 0) gasFeesMultiplier
      let adjustedMaxPriorityFeePerGasBeforeMin :=
        scaledFee (o.feeMaxPriorityFeePerGas.getD 0) gasFeesMultiplier
      let adjustedMaxPriorityFeePerGas :=
        max adjustedMaxPriorityFeePerGasBeforeMin alchemyMaxPriorityFeePerGas
      let userOpForEstimate : UserOperation :=
        { userOp with
          maxPriorityFeePerGas := adjustedMaxPriorityFeePerGas
          maxFeePerGas := adjustedMaxFeePerGas
          signature := placeholderSig numSigners
          callGasLimit := 0
          verificationGasLimit := 0
          preVerificationGas := 0 }
      (.ok { userOpForEstimate with
              callGasLimit := o.gasCallGasLimit
              verificationGasLimit := o.gasVerificationGasLimit
              preVerificationGas := o.gasPreVerificationGas
              signature := [] },
        .feeOracleQuery :: evs ++ [.bundlerEstimate (placeholderSig numSigners)])

/-- One collected signature record
(`{ signer: Address; signature: string; userOpSigType?: string }`). -/
structure SignatureEntry where
  signer : Nat
  signature : List Nat
  userOpSigType : Option String
deriving Repr, DecidableEq

/-- Processing of one entry inside `buildMultiSigUserOp`'s `forEach`
(lines 323-335): `v` is the byte at offset 64 plus 32 when
`userOpSigType === "ACTUAL"`; the emitted block is the first 64 bytes
followed by `toHex(v, { size: 1 })`.  `none` models the viem exceptions:
a signature shorter than 65 bytes makes `parseInt` yield `NaN` and
`toHex` throw, and `toHex` rejects `v` above one byte. -/
def packEntry (e : SignatureEntry) : Option (List Nat) :=
  let addV : Nat := if e.userOpSigType = some "ACTUAL" then 32 else 0
  match e.signature[64]? with
  | none => none
  | some v0 =>
    let v := v0 + addV
    if v < 256 then some (e.signature.take 64 ++ [v]) else none

/-- The `forEach` accumulation of `eoaSigs`: concatenate the blocks in
list order, aborting at the first throwing entry. -/
def packBlocks : List SignatureEntry → Option (List Nat)
  | [] => some []
  | e :: rest =>
    match packEntry e, packBlocks rest with
    | some b, some bs => some (b ++ bs)
    | _, _ => none

/-- The `.sort` call (lines 317-322): stable sort by the signer address
interpreted as an unsigned integer, ascending.  JS `Array.prototype.sort`
with a consistent comparator is specified to be a stable sort, which
determines its output uniquely; a stable structural sort is the faithful
embedding. -/
def sortSignatures (l : List SignatureEntry) : List SignatureEntry :=
  List.insertionSort (fun a b => a.signer ≤ b.signer) l

/-- `buildMultiSigUserOp` (lines 301-344): sort the entries by signer
address, pack each into its adjusted 65-byte block, and replace the user
operation's signature field with the concatenation. -/
def buildMultiSigUserOp (userOp : UserOperation)
    (signatures : List SignatureEntry) : Except BuildError UserOperation :=
  match packBlocks (sortSignatures signatures) with
  | none => .error .packingError
  | some eoaSigs => .ok { userOp with signature := eoaSigs }

/-- The per-signer signing oracle: `signUserOp` hashes the given user
operation through the entry point and signs with the signer's key; the
composite is modelled as an abstract deterministic function from the
signer's address and the signed operation to the 65 raw signature bytes. -/
def SignFn : Type := Nat → UserOperation → List Nat

/-- The signing loop of `buildAndSignMultisigUserOp` (lines 264-290),
recursing over the remaining signer addresses.  The last signer
(`i === numSigners - 1`, i.e. empty tail) signs the fee-estimated
operation obtained from `estimateUserOp` on the base operation; every
other signer signs the base operation itself.  `partialUserOpWithGas` is
reassigned to `userOpToSign` every iteration; `sigs` accumulates the
pushed entries, the last one tagged `"ACTUAL"`. -/
def signLoop (o : NetOracle) (signFn : SignFn)
    (partialUserOp : UserOperation) (numSigners : Nat)
    (gasFeesMultiplier : ℚ) :
    List Nat → UserOperation → List SignatureEntry →
    Except BuildError (UserOperation × List SignatureEntry) × List NetEvent
  | [], partialUserOpWithGas, sigs => (.ok (partialUserOpWithGas, sigs), [])
  | signer :: rest, _, sigs =>
    let isLastSigner := rest.isEmpty
    let estStep : Except BuildError UserOperation × List NetEvent :=
      if isLastSigner then
        estimateUserOp o partialUserOp numSigners gasFeesMultiplier
      else (.ok partialUserOp, [])
    match estStep with
    | (.error e, evs) => (.error e, evs)
    | (.ok userOpToSign, evs) =>
      let entry : SignatureEntry :=
        { signer := signer
          signature := signFn signer userOpToSign
          userOpSigType := if isLastSigner then some "ACTUAL" else none }
      match signLoop o signFn partialUserOp numSigners gasFeesMultiplier
          rest userOpToSign (sigs ++ [entry]) with
      | (res, evs2) => (res, evs ++ evs2)

/-- `buildAndSignMultisigUserOp` (lines 242-299): build the base user
operation, run the signing loop over the signer addresses, then pack the
collected signatures over the operation the loop last assigned to
`partialUserOpWithGas`. -/
def buildAndSignMultisigUserOp (o : NetOracle) (signFn : SignFn)
    (walletAddress : Nat) (callData : List Nat) (fetchedNonce : Nat)
    (signerAddresses : List Nat) (gasFeesMultiplier : ℚ) :
    Except BuildError UserOperation × List NetEvent :=
  match getPartialUserOp walletAddress callData fetchedNonce with
  | .error e => (.error e, [])
  | .ok partialUserOp =>
    match signLoop o signFn partialUserOp signerAddresses.length
        gasFeesMultiplier signerAddresses partialUserOp [] with
    | (.error e, evs) => (.error e, evs)
    | (.ok (partialUserOpWithGas, sigs), evs) =>
      match buildMultiSigUserOp partialUserOpWithGas sigs with
      | .error e => (.error e, evs)
      | .ok u => (.ok u, evs)

/-! ### Helper notions and lemmas about the packer -/

/-- The recovery-byte adjustment of an entry: 32 for the `"ACTUAL"`
(final) signature, 0 otherwise. -/
def entryAddV (e : SignatureEntry) : Nat :=
  if e.userOpSigType = some "ACTUAL" then 32 else 0

/-- The 65-byte block the packer emits for one well-formed entry:
the first 64 signature bytes followed by the adjusted recovery byte. -/
def entryBlock (e : SignatureEntry) : List Nat :=
  e.signature.take 64 ++ [e.signature[64]?.getD 0 + entryAddV e]

/-- An entry the packer accepts: at least 65 signature bytes and an
adjusted recovery value that still fits in one byte. -/
def GoodEntry (e : SignatureEntry) : Prop :=
  65 ≤ e.signature.length ∧ e.signature[64]?.getD 0 + entryAddV e < 256

instance : DecidablePred GoodEntry := fun e => by
  unfold GoodEntry; infer_instance


/-- The entry list the orchestration loop collects over signers
`base`/`est`: every signer but the last signs the base operation,
untagged; the last signs the fee-estimated operation, tagged
`"ACTUAL"`. -/
def collectedEntries (signFn : SignFn) (base est : UserOperation) :
    List Nat → List SignatureEntry
  | [] => []
  | [a] => [{ signer := a, signature := signFn a est,
              userOpSigType := some "ACTUAL" }]
  | a :: b :: rest =>
    { signer := a, signature := signFn a base, userOpSigType := none } ::
      collectedEntries signFn base est (b :: rest)

/-! ### Concrete sample data for witnesses and counterexamples -/

/-- A deployed-account base user operation (nonce 5, zero gas, empty
signature), as `getPartialUserOp` would build it. -/
def sampleBase : UserOperation :=
  { sender := 7, nonce := 5, factory := none, factoryData := none,
    callData := [1, 2], maxPriorityFeePerGas := 0, maxFeePerGas := 0,
    callGasLimit := 0, verificationGasLimit := 0, preVerificationGas := 0,
    signature := [] }

/-- A non-Alchemy network oracle answering 1000/40 wei fees and gas
limits 11/12/13. -/
def sampleOracle : NetOracle :=
  { feeMaxFeePerGas := some 1000, feeMaxPriorityFeePerGas := some 40,
    isAlchemy := false, alchemyResponse := .ok none,
    gasCallGasLimit := 11, gasVerificationGasLimit := 12,
    gasPreVerificationGas := 13 }

/-- The result of `estimateUserOp sampleOracle sampleBase _ 1`. -/
def sampleEst : UserOperation :=
  { sampleBase with
    maxPriorityFeePerGas := 40
    maxFeePerGas := 1000
    callGasLimit := 11
    verificationGasLimit := 12
    preVerificationGas := 13 }

/-- An Alchemy-bundler oracle whose min-fee query succeeds but carries no
`result` value. -/
def alchemyNoneOracle : NetOracle :=
  { sampleOracle with isAlchemy := true, alchemyResponse := .ok none }

/-- A signature entry for the low address `0x111` (non-final). -/
def e111 : SignatureEntry :=
  { signer := 0x111, signature := (List.range 64).map (fun i => i + 100) ++ [28],
    userOpSigType := none }

/-- A signature entry for the high address `0xAAA` (final). -/
def eAAA : SignatureEntry :=
  { signer := 0xAAA, signature := List.range 64 ++ [27],
    userOpSigType := some "ACTUAL" }

/-- An entry whose raw signature is one byte too short (64 bytes). -/
def eShort : SignatureEntry :=
  { signer := 3, signature := List.replicate 64 9, userOpSigType := none }

/-- An entry whose raw signature is one byte too long (66 bytes). -/
def eLong : SignatureEntry :=
  { signer := 3, signature := List.replicate 66 9, userOpSigType := none }

/-- A deployed-account oracle variant: the Alchemy min-fee fetch fails in
transport (the `fetch` promise rejects). -/
def alchemyErrOracle : NetOracle :=
  { sampleOracle with isAlchemy := true, alchemyResponse := .error () }

/-- A concrete deterministic signing oracle used by witnesses. -/
def sampleSignFn : SignFn := fun a u =>
  List.replicate 64 (a % 256) ++ [if u.preVerificationGas = 0 then 27 else 28]

/-! ### Packer lemmas -/

theorem packEntry_eq_of_good (e : SignatureEntry) (h : GoodEntry e) :
    packEntry e = some (entryBlock e) := by
  obtain ⟨hlen, hv⟩ := h
  have h64 : e.signature[64]? = some e.signature[64] :=
    List.getElem?_eq_getElem (by omega)
  simp only [packEntry, entryBlock, entryAddV, h64, Option.getD_some] at hv ⊢
  split <;> simp_all

theorem packEntry_none_of_short (e : SignatureEntry)
    (h : e.signature.length < 65) : packEntry e = none := by
  have h64 : e.signature[64]? = none := by
    rw [List.getElem?_eq_none_iff]; omega
  simp [packEntry, h64]

theorem entryBlock_length (e : SignatureEntry)
    (h : 65 ≤ e.signature.length) : (entryBlock e).length = 65 := by
  simp [entryBlock, List.length_take]; omega

theorem packBlocks_eq_of_good (l : List SignatureEntry)
    (h : ∀ e ∈ l, GoodEntry e) :
    packBlocks l = some ((l.map entryBlock).flatten) := by
  induction l with
  | nil => rfl
  | cons e rest ih =>
    have he : packEntry e = some (entryBlock e) :=
      packEntry_eq_of_good e (h e (by simp))
    have hr : packBlocks rest = some ((rest.map entryBlock).flatten) :=
      ih fun x hx => h x (by simp [hx])
    simp [packBlocks, he, hr]

theorem packBlocks_none_of_mem (l : List SignatureEntry)
    (e : SignatureEntry) (he : e ∈ l) (h : packEntry e = none) :
    packBlocks l = none := by
  induction l with
  | nil => cases he
  | cons x rest ih =>
    rcases List.mem_cons.mp he with rfl | hmem
    · simp [packBlocks, h]
    · simp only [packBlocks, ih hmem]
      split <;> simp_all

theorem sortSignatures_perm (l : List SignatureEntry) :
    List.Perm (sortSignatures l) l :=
  List.perm_insertionSort _ l

theorem sortSignatures_sorted (l : List SignatureEntry) :
    (sortSignatures l).Pairwise fun a b => a.signer ≤ b.signer := by
  have ht : IsTotal SignatureEntry fun a b => a.signer ≤ b.signer :=
    ⟨fun a b => Nat.le_total a.signer b.signer⟩
  have htr : IsTrans SignatureEntry fun a b => a.signer ≤ b.signer :=
    ⟨fun _ _ _ hab hbc => le_trans hab hbc⟩
  exact @List.sorted_insertionSort _ _ _ ht htr l

/-- For entry lists whose signer addresses are pairwise distinct, the
sort output is determined by the entry set alone: any two permuted
presentations sort identically. -/
theorem sortSignatures_eq_of_perm (l l' : List SignatureEntry)
    (hp : List.Perm l' l) (hnd : (l.map SignatureEntry.signer).Nodup) :
    sortSignatures l' = sortSignatures l := by
  have hperm : List.Perm (sortSignatures l') (sortSignatures l) :=
    (sortSignatures_perm l').trans (hp.trans (sortSignatures_perm l).symm)
  have hlt : ∀ m : List SignatureEntry, List.Perm m l →
      m.Pairwise (fun a b => a.signer ≤ b.signer) →
      m.Pairwise (fun a b => a.signer < b.signer) := by
    intro m hm hs
    have hnd' : (m.map SignatureEntry.signer).Nodup :=
      (hm.map SignatureEntry.signer).nodup_iff.mpr hnd
    have hne : m.Pairwise fun a b => a.signer ≠ b.signer :=
      List.pairwise_map.mp hnd'
    exact (hs.and hne).imp fun h => lt_of_le_of_ne h.1 h.2
  have ha : IsAntisymm SignatureEntry fun a b => a.signer < b.signer :=
    ⟨fun a b h1 h2 => absurd h2 (not_lt_of_gt h1)⟩
  exact @List.eq_of_perm_of_sorted _ _ ha _ _ hperm
    (hlt _ ((sortSignatures_perm l').trans hp) (sortSignatures_sorted l'))
    (hlt _ (sortSignatures_perm l) (sortSignatures_sorted l))

theorem blocks_flatten_length (l : List SignatureEntry)
    (h : ∀ e ∈ l, 65 ≤ e.signature.length) :
    ((l.map entryBlock).flatten).length = 65 * l.length := by
  induction l with
  | nil => simp
  | cons e rest ih =>
    simp only [List.map_cons, List.flatten_cons, List.length_append,
      List.length_cons, entryBlock_length e (h e (by simp)),
      ih fun x hx => h x (by simp [hx])]
    ring

theorem placeholderSig_length (n : Nat) :
    (placeholderSig n).length = 65 * n := by
  simp [placeholderSig, placeholderPattern, List.sum_replicate]
  ring

theorem scaledFee_one (fee : Nat) : scaledFee fee 1 = fee := by
  have h : jsRound ((1 - 1) * 100) = 0 := by norm_num [jsRound]
  rw [scaledFee, h, show ((100 : ℤ) + 0).toNat = 100 from rfl]
  omega


/-! ### Characterization of the signing loop -/

theorem signLoop_ok (o : NetOracle) (f : SignFn) (base est : UserOperation)
    (N : Nat) (m : ℚ) (evs : List NetEvent)
    (hEst : estimateUserOp o base N m = (.ok est, evs)) :
    ∀ (l : List Nat), l ≠ [] →
      ∀ (acc : List SignatureEntry) (op0 : UserOperation),
      signLoop o f base N m l op0 acc =
        (.ok (est, acc ++ collectedEntries f base est l), evs)
  | [], h => absurd rfl h
  | [a], _ => by
    intro acc op0
    simp [signLoop, hEst, collectedEntries]
  | a :: b :: rest, _ => by
    intro acc op0
    have hih := signLoop_ok o f base est N m evs hEst (b :: rest) (by simp)
      (acc ++ [{ signer := a, signature := f a base, userOpSigType := none }])
      base
    conv_lhs => rw [signLoop]
    simp only [List.isEmpty_cons, Bool.false_eq_true, reduceIte]
    rw [hih]
    simp [collectedEntries, List.append_assoc]

theorem collectedEntries_eq (f : SignFn) (base est : UserOperation) :
    ∀ (l : List Nat) (h : l ≠ []),
      collectedEntries f base est l =
        l.dropLast.map (fun s =>
          { signer := s, signature := f s base, userOpSigType := none }) ++
          [{ signer := l.getLast h, signature := f (l.getLast h) est,
             userOpSigType := some "ACTUAL" }]
  | [], h => absurd rfl h
  | [a], _ => by simp [collectedEntries]
  | a :: b :: rest, _ => by
    rw [collectedEntries, collectedEntries_eq f base est (b :: rest) (by simp)]
    simp [List.getLast_cons_cons]

/-! ### Claims -/

/-- C1: for every set of N ≥ 1 signature entries (each with a 65-byte
raw r‖s‖v signature and an adjusted recovery value still fitting one
byte), the pack operation succeeds and produces a signature field that
is the concatenation, in ascending order of signer address interpreted
as an unsigned integer, of one 65-byte block per entry — the 64 r‖s
bytes followed by the recovery byte v, with 32 added to v exactly when
the entry is tagged `"ACTUAL"` (role FINAL) — so the packed signature is
exactly 65*N bytes long. -/
theorem pack_sorted_concatenation (userOp : UserOperation)
    (l : List SignatureEntry) (hN : l ≠ [])
    (hlen : ∀ e ∈ l, e.signature.length = 65)
    (hv : ∀ e ∈ l, e.signature[64]?.getD 0 + entryAddV e < 256) :
    buildMultiSigUserOp userOp l =
      .ok { userOp with
            signature := ((sortSignatures l).map entryBlock).flatten } ∧
    List.Perm (sortSignatures l) l ∧
    (sortSignatures l).Pairwise (fun a b => a.signer ≤ b.signer) ∧
    (((sortSignatures l).map entryBlock).flatten).length = 65 * l.length := by
  have hgood : ∀ e ∈ sortSignatures l, GoodEntry e := by
    intro e he
    have hmem : e ∈ l := (sortSignatures_perm l).mem_iff.mp he
    exact ⟨le_of_eq (hlen e hmem).symm, hv e hmem⟩
  refine ⟨?_, sortSignatures_perm l, sortSignatures_sorted l, ?_⟩
  · simp [buildMultiSigUserOp, packBlocks_eq_of_good _ hgood]
  · rw [blocks_flatten_length (sortSignatures l) (fun e he => (hgood e he).1),
      (sortSignatures_perm l).length_eq]

/-- C1 witness: the claim instantiated on the two concrete entries for
addresses `0xAAA` and `0x111`. -/
theorem pack_sorted_concatenation_witness :
    ([eAAA, e111] : List SignatureEntry) ≠ [] ∧
    (∀ e ∈ [eAAA, e111], e.signature.length = 65) ∧
    (∀ e ∈ [eAAA, e111], e.signature[64]?.getD 0 + entryAddV e < 256) ∧
    (buildMultiSigUserOp sampleBase [eAAA, e111] =
      .ok { sampleBase with
            signature := ((sortSignatures [eAAA, e111]).map entryBlock).flatten } ∧
     List.Perm (sortSignatures [eAAA, e111]) [eAAA, e111] ∧
     (sortSignatures [eAAA, e111]).Pairwise (fun a b => a.signer ≤ b.signer) ∧
     (((sortSignatures [eAAA, e111]).map entryBlock).flatten).length = 65 * 2) :=
  ⟨by simp, by decide, by decide,
    pack_sorted_concatenation sampleBase [eAAA, e111] (by simp) (by decide)
      (by decide)⟩

/-- C2: in the orchestration loop over N ≥ 1 signers, every signer
except the last signs the fee-incomplete base user operation (zero gas
and fees, empty signature) while the last signer signs the fee-complete
operation returned by the fee estimator; for N = 1 the sole signer is
the last one, so it signs the estimated operation.  `f s u` abstracts
"hash `u` and sign with signer `s`". -/
theorem nonfinal_signs_base_final_signs_estimated
    (o : NetOracle) (f : SignFn) (base est : UserOperation) (m : ℚ)
    (evs : List NetEvent) (l : List Nat) (hl : l ≠ [])
    (hEst : estimateUserOp o base l.length m = (.ok est, evs)) :
    signLoop o f base l.length m l base [] =
      (.ok (est,
        l.dropLast.map (fun s =>
          { signer := s, signature := f s base, userOpSigType := none }) ++
          [{ signer := l.getLast hl, signature := f (l.getLast hl) est,
             userOpSigType := some "ACTUAL" }]), evs) := by
  rw [signLoop_ok o f base est l.length m evs hEst l hl [] base,
    collectedEntries_eq f base est l hl]
  simp

/-- C2 witness: two signers 10 and 3; signer 10 signs the base
operation, signer 3 (the last) signs the estimated one. -/
theorem nonfinal_signs_base_final_signs_estimated_witness :
    (([10, 3] : List Nat) ≠ []) ∧
    estimateUserOp sampleOracle sampleBase ([10, 3] : List Nat).length 1 =
      (.ok sampleEst, [.feeOracleQuery, .bundlerEstimate (placeholderSig 2)]) ∧
    signLoop sampleOracle sampleSignFn sampleBase ([10, 3] : List Nat).length 1
        [10, 3] sampleBase [] =
      (.ok (sampleEst,
        ([10, 3] : List Nat).dropLast.map (fun s =>
          { signer := s, signature := sampleSignFn s sampleBase,
            userOpSigType := none }) ++
          [{ signer := ([10, 3] : List Nat).getLast (by simp),
             signature := sampleSignFn (([10, 3] : List Nat).getLast (by simp))
               sampleEst,
             userOpSigType := some "ACTUAL" }]),
        [.feeOracleQuery, .bundlerEstimate (placeholderSig 2)]) := by
  have hEst : estimateUserOp sampleOracle sampleBase ([10, 3] : List Nat).length 1 =
      (.ok sampleEst, [.feeOracleQuery, .bundlerEstimate (placeholderSig 2)]) := by
    simp [estimateUserOp, sampleOracle, sampleBase, sampleEst, jsFalsy, scaledFee_one]
  exact ⟨by simp, hEst,
    nonfinal_signs_base_final_signs_estimated sampleOracle sampleSignFn sampleBase
      sampleEst 1 _ [10, 3] (by simp) hEst⟩

/-- C3: for every signer set of size N ≥ 1, the loop collects exactly
one entry tagged `"ACTUAL"` (role FINAL) — the one of the last-processed
signer, signed over the fee-estimated operation — all other entries are
untagged; for N = 1 the sole entry is the tagged one; and in the packed
output the tagged entry's recovery byte is its raw byte plus 32 while
the untagged entries' recovery bytes are unchanged. -/
theorem exactly_one_final_entry
    (o : NetOracle) (f : SignFn) (base est : UserOperation) (m : ℚ)
    (evs : List NetEvent) (l : List Nat) (hl : l ≠ [])
    (hEst : estimateUserOp o base l.length m = (.ok est, evs)) :
    ∃ sigs : List SignatureEntry,
      (signLoop o f base l.length m l base []).1 = .ok (est, sigs) ∧
      sigs.length = l.length ∧
      sigs.countP (fun e => e.userOpSigType == some "ACTUAL") = 1 ∧
      sigs.getLast? = some (SignatureEntry.mk (l.getLast hl)
        (f (l.getLast hl) est) (some "ACTUAL")) ∧
      (∀ e ∈ sigs.dropLast, e.userOpSigType = none) ∧
      (∀ e : SignatureEntry, GoodEntry e →
        packEntry e = some (e.signature.take 64 ++
          [e.signature[64]?.getD 0 +
            (if e.userOpSigType = some "ACTUAL" then 32 else 0)])) := by
  refine ⟨collectedEntries f base est l, ?_, ?_, ?_, ?_, ?_, ?_⟩
  · rw [signLoop_ok o f base est l.length m evs hEst l hl [] base]; simp
  · rw [collectedEntries_eq f base est l hl]
    have := List.length_pos.mpr hl
    simp [List.length_dropLast]
    omega
  · rw [collectedEntries_eq f base est l hl]
    simp [List.countP_append, List.countP_cons, List.countP_map, Function.comp]
    intro a ha
    obtain ⟨s, _, rfl⟩ := List.mem_map.mp ((List.dropLast_sublist _).subset ha)
    simp
  · rw [collectedEntries_eq f base est l hl]
    simp
  · rw [collectedEntries_eq f base est l hl]
    intro e he
    simp only [List.dropLast_concat, List.mem_map] at he
    obtain ⟨s, _, rfl⟩ := he
    rfl
  · intro e hg
    rw [packEntry_eq_of_good e hg]
    simp [entryBlock, entryAddV]

/-- C3 witness: the single-signer case N = 1, where the sole collected
entry is the FINAL one. -/
theorem exactly_one_final_entry_witness :
    (([10] : List Nat) ≠ []) ∧
    estimateUserOp sampleOracle sampleBase ([10] : List Nat).length 1 =
      (.ok sampleEst, [.feeOracleQuery, .bundlerEstimate (placeholderSig 1)]) ∧
    (∃ sigs : List SignatureEntry,
      (signLoop sampleOracle sampleSignFn sampleBase ([10] : List Nat).length 1
          [10] sampleBase []).1 = .ok (sampleEst, sigs) ∧
      sigs.length = ([10] : List Nat).length ∧
      sigs.countP (fun e => e.userOpSigType == some "ACTUAL") = 1 ∧
      sigs.getLast? = some (SignatureEntry.mk (([10] : List Nat).getLast (by simp))
        (sampleSignFn (([10] : List Nat).getLast (by simp)) sampleEst)
        (some "ACTUAL")) ∧
      (∀ e ∈ sigs.dropLast, e.userOpSigType = none) ∧
      (∀ e : SignatureEntry, GoodEntry e →
        packEntry e = some (e.signature.take 64 ++
          [e.signature[64]?.getD 0 +
            (if e.userOpSigType = some "ACTUAL" then 32 else 0)]))) := by
  have hEst : estimateUserOp sampleOracle sampleBase ([10] : List Nat).length 1 =
      (.ok sampleEst, [.feeOracleQuery, .bundlerEstimate (placeholderSig 1)]) := by
    simp [estimateUserOp, sampleOracle, sampleBase, sampleEst, jsFalsy, scaledFee_one]
  exact ⟨by simp, hEst,
    exactly_one_final_entry sampleOracle sampleSignFn sampleBase sampleEst 1 _
      [10] (by simp) hEst⟩

/-- C4: whenever the fee estimator succeeds, the placeholder signature
it built has length exactly 65 * numSigners bytes, it is sent exactly
once — in the bundler gas-estimation call and nowhere else — and the
returned operation has its signature reset to empty with
callGasLimit, verificationGasLimit and preVerificationGas taken from the
bundler's estimation response. -/
theorem estimator_placeholder_and_reset
    (o : NetOracle) (op : UserOperation) (N : Nat) (m : ℚ)
    (u : UserOperation) (evs : List NetEvent)
    (h : estimateUserOp o op N m = (.ok u, evs)) :
    (placeholderSig N).length = 65 * N ∧
    u.signature = [] ∧
    u.callGasLimit = o.gasCallGasLimit ∧
    u.verificationGasLimit = o.gasVerificationGasLimit ∧
    u.preVerificationGas = o.gasPreVerificationGas ∧
    ∃ pre, evs = pre ++ [.bundlerEstimate (placeholderSig N)] ∧
      ∀ s, NetEvent.bundlerEstimate s ∉ pre := by
  refine ⟨placeholderSig_length N, ?_⟩
  by_cases hA : o.isAlchemy
  · rcases hr : o.alchemyResponse with e | r
    · rw [estimateUserOp] at h
      split at h
      · simp at h
      · split at h
        · simp at h
        · simp [hA, hr] at h
    · simp only [estimateUserOp, hA, hr, if_true] at h
      split at h
      · simp at h
      · split at h
        · simp at h
        · obtain ⟨h1, h2⟩ := Prod.mk.injEq .. ▸ h
          obtain rfl := Except.ok.inj h1
          refine ⟨rfl, rfl, rfl, rfl, [.feeOracleQuery, .alchemyQuery],
            h2.symm, ?_⟩
          intro s; simp
  · simp only [estimateUserOp, hA, if_false, Bool.false_eq_true] at h
    split at h
    · simp at h
    · split at h
      · simp at h
      · obtain ⟨h1, h2⟩ := Prod.mk.injEq .. ▸ h
        obtain rfl := Except.ok.inj h1
        refine ⟨rfl, rfl, rfl, rfl, [.feeOracleQuery], h2.symm, ?_⟩
        intro s; simp

/-- C4 witness: a concrete successful estimation with numSigners = 2. -/
theorem estimator_placeholder_and_reset_witness :
    estimateUserOp sampleOracle sampleBase 2 1 =
      (.ok sampleEst, [.feeOracleQuery, .bundlerEstimate (placeholderSig 2)]) ∧
    ((placeholderSig 2).length = 65 * 2 ∧
     sampleEst.signature = [] ∧
     sampleEst.callGasLimit = sampleOracle.gasCallGasLimit ∧
     sampleEst.verificationGasLimit = sampleOracle.gasVerificationGasLimit ∧
     sampleEst.preVerificationGas = sampleOracle.gasPreVerificationGas ∧
     ∃ pre, [NetEvent.feeOracleQuery, NetEvent.bundlerEstimate (placeholderSig 2)] =
         pre ++ [.bundlerEstimate (placeholderSig 2)] ∧
       ∀ s, NetEvent.bundlerEstimate s ∉ pre) := by
  have hEst : estimateUserOp sampleOracle sampleBase 2 1 =
      (.ok sampleEst, [.feeOracleQuery, .bundlerEstimate (placeholderSig 2)]) := by
    simp [estimateUserOp, sampleOracle, sampleBase, sampleEst, jsFalsy, scaledFee_one]
  exact ⟨hEst, estimator_placeholder_and_reset sampleOracle sampleBase 2 1
    sampleEst [.feeOracleQuery, .bundlerEstimate (placeholderSig 2)] hEst⟩

/-- C5: for every non-negative integer fee and multiplier ≥ 1, the
scaled fee equals floor(fee * (100 + round((multiplier - 1) * 100)) / 100)
computed over the exact rational multiplier with integer division, the
scaled fee is at least the original fee, and multiplier 1.2 applied to
fee 1000 yields 1200. -/
theorem scaledFee_matches_spec_formula (fee : Nat) (m : ℚ) (hm : 1 ≤ m) :
    (scaledFee fee m : ℤ) =
      ⌊((fee : ℚ) * (100 + (jsRound ((m - 1) * 100) : ℚ))) / 100⌋ ∧
    fee ≤ scaledFee fee m ∧
    scaledFee 1000 (6 / 5) = 1200 := by
  have hq : (0 : ℚ) ≤ (m - 1) * 100 := by nlinarith
  have hj : 0 ≤ jsRound ((m - 1) * 100) := by
    rw [jsRound]
    exact Int.le_floor.mpr (by push_cast; linarith)
  set j := jsRound ((m - 1) * 100) with hjdef
  have hk : (((100 + j).toNat : ℕ) : ℤ) = 100 + j := Int.toNat_of_nonneg (by omega)
  have hkq : (((100 + j).toNat : ℕ) : ℚ) = 100 + (j : ℚ) := by
    exact_mod_cast congrArg (fun z : ℤ => (z : ℚ)) hk
  have h12 : scaledFee 1000 (6 / 5) = 1200 := by
    have h20 : jsRound ((6 / 5 - 1) * 100) = 20 := by norm_num [jsRound]
    rw [scaledFee, h20]
    rfl
  refine ⟨?_, ?_, h12⟩
  · rw [scaledFee, ← hjdef]
    have hcast : ((fee : ℚ) * (100 + (j : ℚ))) =
        ((fee * (100 + j).toNat : ℕ) : ℚ) := by
      push_cast [hkq]
      ring
    calc ((fee * (100 + j).toNat / 100 : ℕ) : ℤ)
        = ((fee * (100 + j).toNat : ℕ) : ℤ) / ((100 : ℕ) : ℤ) :=
          Int.ofNat_ediv _ _
      _ = ⌊(((fee * (100 + j).toNat : ℕ) : ℚ) / ((100 : ℕ) : ℚ))⌋ :=
          (Rat.floor_natCast_div_natCast _ _).symm
      _ = ⌊((fee : ℚ) * (100 + (j : ℚ))) / 100⌋ := by
          rw [hcast]
          norm_num
  · rw [scaledFee, ← hjdef]
    have h100 : 100 ≤ (100 + j).toNat := by omega
    calc fee = fee * 100 / 100 := by omega
      _ ≤ fee * (100 + j).toNat / 100 :=
          Nat.div_le_div_right (Nat.mul_le_mul le_rfl h100)

/-- C5 witness: the formula instantiated at fee 1000 and multiplier
6/5 = 1.2. -/
theorem scaledFee_matches_spec_formula_witness :
    (1 : ℚ) ≤ 6 / 5 ∧
    ((scaledFee 1000 (6 / 5) : ℤ) =
      ⌊((1000 : ℚ) * (100 + (jsRound ((6 / 5 - 1) * 100) : ℚ))) / 100⌋ ∧
     1000 ≤ scaledFee 1000 (6 / 5) ∧
     scaledFee 1000 (6 / 5) = 1200) :=
  ⟨by norm_num, scaledFee_matches_spec_formula 1000 (6 / 5) (by norm_num)⟩

/-- C6 counterexample: calling the estimator with multiplier 1/2 < 1 on
an oracle with usable fees does fail with InvalidConfig, but the trace
of network calls performed before the failure is not empty — the
fee-oracle query (`publicClient.estimateFeesPerGas()`, line 154 of the
source) runs before the multiplier check (line 160), so the claim that
the failure precedes any network call is false. -/
theorem invalidConfig_trace_not_empty :
    estimateUserOp sampleOracle sampleBase 1 (1 / 2) =
      (.error .invalidConfig, [.feeOracleQuery]) ∧
    NetEvent.feeOracleQuery ∈ (estimateUserOp sampleOracle sampleBase 1 (1 / 2)).2 := by
  have h : estimateUserOp sampleOracle sampleBase 1 (1 / 2) =
      (.error .invalidConfig, [.feeOracleQuery]) := by
    norm_num [estimateUserOp, sampleOracle, jsFalsy]
  exact ⟨h, by rw [h]; simp⟩

/-- C6 amended: for every call with multiplier < 1 in which the fee
oracle returned usable (non-falsy) fees, the estimator fails with
InvalidConfig after the fee-oracle query but before the provider
min-fee query and the bundler gas-estimation call: the trace is exactly
the single fee-oracle query. -/
theorem invalidConfig_after_oracle_query
    (o : NetOracle) (op : UserOperation) (N : Nat) (m : ℚ) (hm : m < 1)
    (hf : jsFalsy o.feeMaxFeePerGas = false)
    (hp : jsFalsy o.feeMaxPriorityFeePerGas = false) :
    estimateUserOp o op N m = (.error .invalidConfig, [.feeOracleQuery]) := by
  simp [estimateUserOp, hf, hp, hm]

/-- C6 witness: the amended behaviour at multiplier 1/2. -/
theorem invalidConfig_after_oracle_query_witness :
    ((1 / 2 : ℚ) < 1) ∧
    (jsFalsy sampleOracle.feeMaxFeePerGas = false) ∧
    (jsFalsy sampleOracle.feeMaxPriorityFeePerGas = false) ∧
    estimateUserOp sampleOracle sampleBase 1 (1 / 2) =
      (.error .invalidConfig, [.feeOracleQuery]) :=
  ⟨by norm_num, rfl, rfl,
    invalidConfig_after_oracle_query sampleOracle sampleBase 1 (1 / 2)
      (by norm_num) rfl rfl⟩

/-- C7: for entry sets with pairwise-distinct signer addresses, packing
is independent of the input order — any permutation of the entries
packs to the identical result — and the entry whose signer address is
strictly minimal is sorted first, so its 65-byte block leads the packed
output. -/
theorem pack_input_order_irrelevant (u : UserOperation)
    (l l' : List SignatureEntry) (hp : List.Perm l' l)
    (hnd : (l.map SignatureEntry.signer).Nodup) :
    buildMultiSigUserOp u l' = buildMultiSigUserOp u l ∧
    ∀ e ∈ l, (∀ x ∈ l, x ≠ e → e.signer < x.signer) →
      ∃ tail, sortSignatures l = e :: tail := by
  constructor
  · rw [buildMultiSigUserOp, buildMultiSigUserOp,
      sortSignatures_eq_of_perm l l' hp hnd]
  · intro e he hmin
    have hes : e ∈ sortSignatures l := (sortSignatures_perm l).mem_iff.mpr he
    rcases hq : sortSignatures l with _ | ⟨x, tail⟩
    · rw [hq] at hes; cases hes
    · rw [hq] at hes
      rcases List.mem_cons.mp hes with rfl | hetail
      · exact ⟨tail, rfl⟩
      · exfalso
        have hx : x ∈ l := (sortSignatures_perm l).mem_iff.mp (by rw [hq]; simp)
        have hsorted := sortSignatures_sorted l
        rw [hq] at hsorted
        have hxe : x.signer ≤ e.signer := (List.pairwise_cons.mp hsorted).1 e hetail
        have hnds : ((x :: tail).map SignatureEntry.signer).Nodup := by
          rw [← hq]
          exact ((sortSignatures_perm l).map _).nodup_iff.mpr hnd
        by_cases hxeq : x = e
        · subst hxeq
          exact (List.nodup_cons.mp hnds).1 (List.mem_map_of_mem _ hetail)
        · have := hmin x hx hxeq
          omega

/-- C7 witness: the two signers at addresses `0xAAA` and `0x111`; both
presentation orders pack identically and the `0x111` entry sorts
first. -/
theorem pack_input_order_irrelevant_witness :
    List.Perm [eAAA, e111] [e111, eAAA] ∧
    (([e111, eAAA].map SignatureEntry.signer).Nodup) ∧
    (buildMultiSigUserOp sampleBase [eAAA, e111] =
       buildMultiSigUserOp sampleBase [e111, eAAA] ∧
     ∀ e ∈ [e111, eAAA], (∀ x ∈ [e111, eAAA], x ≠ e → e.signer < x.signer) →
       ∃ tail, sortSignatures [e111, eAAA] = e :: tail) :=
  ⟨List.Perm.swap e111 eAAA [], by decide,
    pack_input_order_irrelevant sampleBase [e111, eAAA] [eAAA, e111]
      (List.Perm.swap e111 eAAA []) (by decide)⟩

/-- C8 counterexample: an entry whose raw signature is 66 bytes — not
exactly 65 — does not make the pack operation fail: it packs
successfully, the bytes beyond index 64 silently ignored (the source's
`takeBytes` slicing reads only offsets 0-63 and 64). -/
theorem pack_oversized_entry_succeeds :
    buildMultiSigUserOp sampleBase [eLong] =
      .ok { sampleBase with signature := List.replicate 64 9 ++ [9] } := by
  rfl

/-- C8 amended: packing fails (the fatal error the spec calls
PackingError) whenever some entry's raw signature is shorter than 65
bytes, but an over-long raw signature does not fail: whenever every
entry has at least 65 bytes (and its adjusted recovery value fits one
byte), packing succeeds, each entry contributing only its first 64
bytes and its byte at index 64. -/
theorem pack_malformed_entry_behaviour (u : UserOperation)
    (l : List SignatureEntry) :
    ((∃ e ∈ l, e.signature.length < 65) →
      buildMultiSigUserOp u l = .error .packingError) ∧
    ((∀ e ∈ l, GoodEntry e) →
      buildMultiSigUserOp u l =
        .ok { u with signature := ((sortSignatures l).map entryBlock).flatten }) := by
  constructor
  · rintro ⟨e, he, hlen⟩
    have h : packBlocks (sortSignatures l) = none :=
      packBlocks_none_of_mem _ e ((sortSignatures_perm l).mem_iff.mpr he)
        (packEntry_none_of_short e hlen)
    simp [buildMultiSigUserOp, h]
  · intro hgood
    have h : ∀ e ∈ sortSignatures l, GoodEntry e := fun e he =>
      hgood e ((sortSignatures_perm l).mem_iff.mp he)
    simp [buildMultiSigUserOp, packBlocks_eq_of_good _ h]

/-- C8 witness: a 64-byte signature fails; a 66-byte signature packs. -/
theorem pack_malformed_entry_behaviour_witness :
    (∃ e ∈ [eShort], e.signature.length < 65) ∧
    buildMultiSigUserOp sampleBase [eShort] = .error .packingError ∧
    (∀ e ∈ [eLong], GoodEntry e) ∧
    buildMultiSigUserOp sampleBase [eLong] =
      .ok { sampleBase with
            signature := ((sortSignatures [eLong]).map entryBlock).flatten } :=
  ⟨by decide, (pack_malformed_entry_behaviour sampleBase [eShort]).1 (by decide),
   by decide, (pack_malformed_entry_behaviour sampleBase [eLong]).2 (by decide)⟩

/-- C9 counterexample: an Alchemy bundler whose min-fee query succeeds
but carries no usable `result` value does not make the estimator fail
with ProviderQueryError — the estimation completes normally, silently
substituting zero as the priority-fee floor
(`alchemyHexResult ? BigInt(alchemyHexResult) : BigInt(0)`,
line 189 of the source). -/
theorem alchemy_missing_result_no_error :
    estimateUserOp alchemyNoneOracle sampleBase 1 1 =
      (.ok sampleEst,
        [.feeOracleQuery, .alchemyQuery, .bundlerEstimate (placeholderSig 1)]) ∧
    (estimateUserOp alchemyNoneOracle sampleBase 1 1).1 ≠
      .error .providerQueryError := by
  have h : estimateUserOp alchemyNoneOracle sampleBase 1 1 =
      (.ok sampleEst,
        [.feeOracleQuery, .alchemyQuery, .bundlerEstimate (placeholderSig 1)]) := by
    simp [estimateUserOp, alchemyNoneOracle, sampleOracle, sampleBase, sampleEst,
      jsFalsy, scaledFee_one]
  exact ⟨h, by rw [h]; simp⟩

/-- C9 amended: on an Alchemy bundler (usable oracle fees, multiplier
not below 1): a transport failure of the min-fee query propagates as a
fatal error before the bundler estimation call; a successful query with
a value v yields maxPriorityFeePerGas = max(scaled priority fee, v);
but a successful query with no usable value does not fail — zero is
silently used, leaving the scaled priority fee unfloored. -/
theorem alchemy_floor_behaviour
    (o : NetOracle) (op : UserOperation) (N : Nat) (m : ℚ) (hm : ¬ m < 1)
    (hf : jsFalsy o.feeMaxFeePerGas = false)
    (hp : jsFalsy o.feeMaxPriorityFeePerGas = false)
    (hA : o.isAlchemy = true) :
    (o.alchemyResponse = .error () →
      estimateUserOp o op N m =
        (.error .providerQueryError, [.feeOracleQuery, .alchemyQuery])) ∧
    (∀ v, o.alchemyResponse = .ok (some v) →
      ∃ u evs, estimateUserOp o op N m = (.ok u, evs) ∧
        u.maxPriorityFeePerGas =
          max (scaledFee (o.feeMaxPriorityFeePerGas.getD 0) m) v) ∧
    (o.alchemyResponse = .ok none →
      ∃ u evs, estimateUserOp o op N m = (.ok u, evs) ∧
        u.maxPriorityFeePerGas = scaledFee (o.feeMaxPriorityFeePerGas.getD 0) m) := by
  refine ⟨?_, ?_, ?_⟩
  · intro hr
    simp [estimateUserOp, hf, hp, hm, hA, hr]
  · intro v hr
    refine ⟨{ op with
        maxPriorityFeePerGas :=
          max (scaledFee (o.feeMaxPriorityFeePerGas.getD 0) m) v
        maxFeePerGas := scaledFee (o.feeMaxFeePerGas.getD 0) m
        callGasLimit := o.gasCallGasLimit
        verificationGasLimit := o.gasVerificationGasLimit
        preVerificationGas := o.gasPreVerificationGas
        signature := [] },
      [.feeOracleQuery, .alchemyQuery, .bundlerEstimate (placeholderSig N)],
      ?_, rfl⟩
    simp [estimateUserOp, hf, hp, hm, hA, hr]
  · intro hr
    refine ⟨{ op with
        maxPriorityFeePerGas := scaledFee (o.feeMaxPriorityFeePerGas.getD 0) m
        maxFeePerGas := scaledFee (o.feeMaxFeePerGas.getD 0) m
        callGasLimit := o.gasCallGasLimit
        verificationGasLimit := o.gasVerificationGasLimit
        preVerificationGas := o.gasPreVerificationGas
        signature := [] },
      [.feeOracleQuery, .alchemyQuery, .bundlerEstimate (placeholderSig N)],
      ?_, rfl⟩
    simp [estimateUserOp, hf, hp, hm, hA, hr]

/-- C9 witness: the no-result oracle completes with the unfloored scaled
priority fee, and the transport-failure oracle propagates the fatal
error. -/
theorem alchemy_floor_behaviour_witness :
    (¬ (1 : ℚ) < 1) ∧
    jsFalsy alchemyNoneOracle.feeMaxFeePerGas = false ∧
    jsFalsy alchemyNoneOracle.feeMaxPriorityFeePerGas = false ∧
    alchemyNoneOracle.isAlchemy = true ∧
    (alchemyNoneOracle.alchemyResponse = .ok none →
      ∃ u evs, estimateUserOp alchemyNoneOracle sampleBase 1 1 = (.ok u, evs) ∧
        u.maxPriorityFeePerGas =
          scaledFee (alchemyNoneOracle.feeMaxPriorityFeePerGas.getD 0) 1) ∧
    estimateUserOp alchemyErrOracle sampleBase 1 1 =
      (.error .providerQueryError, [.feeOracleQuery, .alchemyQuery]) :=
  ⟨by norm_num, rfl, rfl, rfl,
    (alchemy_floor_behaviour alchemyNoneOracle sampleBase 1 1
      (by norm_num) rfl rfl rfl).2.2,
    (alchemy_floor_behaviour alchemyErrOracle sampleBase 1 1
      (by norm_num) rfl rfl rfl).1 rfl⟩

/-- C10: calling the multisig orchestrator with an empty signer list on
a deployed account (non-zero nonce) returns without error the base user
operation — empty signature, all gas and fee fields zero — and performs
no network call at all beyond the nonce fetch; in particular fee
estimation is never invoked, so the spec's N ≥ 1 assumption is not
enforced at this interface. -/
theorem empty_signers_returns_unsigned
    (o : NetOracle) (f : SignFn) (wallet : Nat) (cd : List Nat)
    (nonce : Nat) (m : ℚ) (h : nonce ≠ 0) :
    buildAndSignMultisigUserOp o f wallet cd nonce [] m =
      (.ok { sender := wallet, nonce := nonce, factory := none,
             factoryData := none, callData := cd,
             maxPriorityFeePerGas := 0, maxFeePerGas := 0,
             callGasLimit := 0, verificationGasLimit := 0,
             preVerificationGas := 0, signature := [] }, []) := by
  simp [buildAndSignMultisigUserOp, getPartialUserOp, h, signLoop,
    buildMultiSigUserOp, sortSignatures, packBlocks, List.insertionSort]

/-- C10 witness: wallet 7, nonce 5, empty signer list. -/
theorem empty_signers_returns_unsigned_witness :
    ((5 : Nat) ≠ 0) ∧
    buildAndSignMultisigUserOp sampleOracle sampleSignFn 7 [1, 2] 5 [] 1 =
      (.ok { sender := 7, nonce := 5, factory := none,
             factoryData := none, callData := [1, 2],
             maxPriorityFeePerGas := 0, maxFeePerGas := 0,
             callGasLimit := 0, verificationGasLimit := 0,
             preVerificationGas := 0, signature := [] }, []) :=
  ⟨by decide,
    empty_signers_returns_unsigned sampleOracle sampleSignFn 7 [1, 2] 5 1
      (by decide)⟩

end MSCA
